import Mathlib

/-!
Verification development for a small file-backed relational database engine
(catalog + record store + B+ tree index + SQL-subset parser/executor).

The definitions below are a shallow embedding of the C++ sources:
  - `DatabaseManager.cpp` (record codec, insert/search/update/delete paths),
  - `query_parser.cpp` (value-literal parsing, executor result envelope),
  - `database_manager.h` (the `FieldValue` variant and its `operator==`).

Modelling conventions:
  - C++ `int` is modelled as `Int`; where 32-bit wrap-around matters
    (serialization) we reduce modulo `2 ^ 32` explicitly.
  - C++ `float` is modelled by its IEEE-754 binary32 bit pattern
    (`Float32.bits : Nat`, below `2 ^ 32`); the IEEE comparison semantics
    (NaN incomparable, -0 = +0) is defined on bit patterns.
  - `std::map<std::string, FieldValue>` records are modelled as association
    lists with first-match lookup.
  - Byte files are `List Nat` (each entry a byte value); record-level
    executor paths model a data file as the `List Record` it contains,
    which is faithful because records are fixed-width.
  - Fallible C++ paths (thrown `std::bad_variant_access`, failed opens,
    missing tables) are modelled with `Option`.
-/

namespace DB

/-- Column types, `Column::Type` in `catalog.h` (INT, FLOAT, STRING, CHAR, BOOL). -/
inductive ColType where
  | int
  | float
  | string
  | char
  | bool
deriving DecidableEq, Repr

/-- A column definition, mirroring `Column` in the catalog: name, type,
length (used by STRING/CHAR) and the primary-key flag.  Foreign-key fields
are irrelevant to the claims and omitted. -/
structure Column where
  name : String
  type : ColType
  length : Nat
  is_primary_key : Bool
deriving DecidableEq, Repr

/-- A table schema: name plus ordered column list (file paths omitted). -/
structure TableSchema where
  name : String
  columns : List Column
deriving DecidableEq, Repr

/-- An IEEE-754 binary32 value, carried as its bit pattern. -/
structure Float32 where
  bits : Nat
deriving DecidableEq, Repr

/-- The bit pattern of a NaN: exponent field all ones, mantissa nonzero. -/
def Float32.isNaN (f : Float32) : Bool :=
  decide ((f.bits / 2 ^ 23) % 256 = 255) && decide (f.bits % 2 ^ 23 ≠ 0)

/-- Signed-magnitude comparison key: non-NaN IEEE floats order by this key,
and `+0`/`-0` share key `0` (IEEE equality identifies them). -/
def Float32.key (f : Float32) : Int :=
  let mag : Int := (f.bits % 2 ^ 31 : Nat)
  if (f.bits / 2 ^ 31) % 2 = 1 then -mag else mag

/-- IEEE `==` on binary32: false when either side is NaN. -/
def f32Eq (a b : Float32) : Bool :=
  !a.isNaN && !b.isNaN && decide (a.key = b.key)

/-- IEEE `<` on binary32: false when either side is NaN. -/
def f32Lt (a b : Float32) : Bool :=
  !a.isNaN && !b.isNaN && decide (a.key < b.key)

/-- IEEE `<=` on binary32: false when either side is NaN. -/
def f32Le (a b : Float32) : Bool :=
  !a.isNaN && !b.isNaN && decide (a.key ≤ b.key)

/-- `FieldValue = std::variant<int, float, std::string, bool>` from
`database_manager.h`.  Constructor order matches the variant alternatives,
so `tag` below is `std::variant::index()`. -/
inductive FieldValue where
  | intV (n : Int)
  | fltV (f : Float32)
  | strV (s : String)
  | boolV (b : Bool)
deriving DecidableEq, Repr

/-- `std::variant::index()` of a `FieldValue`. -/
def FieldValue.tag : FieldValue → Nat
  | .intV _ => 0
  | .fltV _ => 1
  | .strV _ => 2
  | .boolV _ => 3

/-- A record: `std::map<std::string, FieldValue>`, modelled as an
association list with first-match lookup. -/
abbrev Record := List (String × FieldValue)

/-- `record.find(name)` / `record.at(name)`: first entry with the key. -/
def recLookup : Record → String → Option FieldValue
  | [], _ => none
  | (k, v) :: rest, n => if k = n then some v else recLookup rest n

/-- `record[k] = v`: replace the first binding of `k`, or append one. -/
def recSet : Record → String → FieldValue → Record
  | [], k, v => [(k, v)]
  | (k', v') :: rest, k, v =>
    if k' = k then (k', v) :: rest else (k', v') :: recSet rest k v

/-- Strict lexicographic order on character lists (C++ `std::string` `<`). -/
def lexLt : List Char → List Char → Bool
  | [], [] => false
  | [], _ :: _ => true
  | _ :: _, [] => false
  | a :: as, b :: bs =>
    if a < b then true
    else if b < a then false
    else lexLt as bs

/-- Weak lexicographic order on character lists (C++ `std::string` `<=`). -/
def lexLe (a b : List Char) : Bool := !lexLt b a

/-- `operator==(FieldValue, FieldValue)` from `database_manager.h`
(lines 28–38): per-tag equality, `false` across tags. -/
def fvEq : FieldValue → FieldValue → Bool
  | .intV a, .intV b => decide (a = b)
  | .fltV a, .fltV b => f32Eq a b
  | .strV a, .strV b => decide (a = b)
  | .boolV a, .boolV b => decide (a = b)
  | _, _ => false

/-- `compareValues` from `DatabaseManager.cpp` (lines 779–837): returns
`false` immediately when the variant indices differ, dispatches `=` and `!=`
to the variant equality, and defines `>`, `<`, `>=`, `<=` for the int,
float and string alternatives; every other combination (bool ordering,
unknown operators such as `LIKE`) falls through to `false`. -/
def compareValues (left right : FieldValue) (op : String) : Bool :=
  if left.tag ≠ right.tag then false
  else if op = "=" then fvEq left right
  else if op = "!=" then !fvEq left right
  else if op = ">" then
    match left, right with
    | .intV a, .intV b => decide (a > b)
    | .fltV a, .fltV b => f32Lt b a
    | .strV a, .strV b => lexLt b.data a.data
    | _, _ => false
  else if op = "<" then
    match left, right with
    | .intV a, .intV b => decide (a < b)
    | .fltV a, .fltV b => f32Lt a b
    | .strV a, .strV b => lexLt a.data b.data
    | _, _ => false
  else if op = ">=" then
    match left, right with
    | .intV a, .intV b => decide (a ≥ b)
    | .fltV a, .fltV b => f32Le b a
    | .strV a, .strV b => lexLe b.data a.data
    | _, _ => false
  else if op = "<=" then
    match left, right with
    | .intV a, .intV b => decide (a ≤ b)
    | .fltV a, .fltV b => f32Le a b
    | .strV a, .strV b => lexLe a.data b.data
    | _, _ => false
  else false

/-! ## Value & field codec (`serializeField` / `deserializeField`) -/

/-- Little-endian 4-byte encoding of a natural number (mod `2 ^ 32`). -/
def natLE4 (m : Nat) : List Nat :=
  [m % 256, m / 256 % 256, m / 256 ^ 2 % 256, m / 256 ^ 3 % 256]

/-- Little-endian 4-byte two's-complement encoding of a C++ `int`. -/
def intLE4 (n : Int) : List Nat :=
  natLE4 ((n % (2 ^ 32 : Int)).toNat)

/-- The `n` payload bytes of a STRING/CHAR field: the value truncated to
`n` characters and NUL-padded (`val.resize(column.length, 0)` in
`serializeField`).  Characters are written as bytes mod 256. -/
def strPayload (s : String) (n : Nat) : List Nat :=
  (s.data.take n).map (fun ch => ch.toNat % 256) ++
    List.replicate (n - s.data.length) 0

/-- `DatabaseManager::serializeField` (lines 366–400).  Returns `none` when
the variant alternative does not match the column type (C++ `std::get`
throws `std::bad_variant_access`).  Note the STRING branch: the value is
resized to `column.length` FIRST, so the written length prefix is always
`column.length`. -/
def serializeField (v : FieldValue) (c : Column) : Option (List Nat) :=
  match c.type with
  | .int =>
    match v with
    | .intV n => some (intLE4 n)
    | _ => none
  | .float =>
    match v with
    | .fltV f => some (natLE4 f.bits)
    | _ => none
  | .string =>
    match v with
    | .strV s => some (natLE4 c.length ++ strPayload s c.length)
    | _ => none
  | .char =>
    match v with
    | .strV s => some (strPayload s c.length)
    | _ => none
  | .bool =>
    match v with
    | .boolV b => some [if b then 1 else 0]
    | _ => none

/-- Decode 4 little-endian bytes as a natural number. -/
def decodeNat4 (b0 b1 b2 b3 : Nat) : Nat :=
  b0 + 256 * b1 + 256 ^ 2 * b2 + 256 ^ 3 * b3

/-- Decode 4 little-endian bytes as a two's-complement C++ `int`. -/
def decodeI32 (b0 b1 b2 b3 : Nat) : Int :=
  let m := decodeNat4 b0 b1 b2 b3
  if m < 2 ^ 31 then (m : Int) else (m : Int) - 2 ^ 32

/-- `DatabaseManager::deserializeField` (lines 402–434), reading from a
byte list and returning the decoded value plus the remaining bytes.
Short reads and a negative STRING length prefix (which would make
`std::string val(len, 0)` throw) are fatal and yield `none`. -/
def deserializeFieldB (c : Column) (bs : List Nat) : Option (FieldValue × List Nat) :=
  match c.type with
  | .int =>
    match bs with
    | b0 :: b1 :: b2 :: b3 :: rest => some (.intV (decodeI32 b0 b1 b2 b3), rest)
    | _ => none
  | .float =>
    match bs with
    | b0 :: b1 :: b2 :: b3 :: rest => some (.fltV ⟨decodeNat4 b0 b1 b2 b3⟩, rest)
    | _ => none
  | .string =>
    match bs with
    | b0 :: b1 :: b2 :: b3 :: rest =>
      let lenI := decodeI32 b0 b1 b2 b3
      if lenI < 0 then none
      else
        let len := lenI.toNat
        if rest.length < len then none
        else some (.strV (String.mk ((rest.take len).map Char.ofNat)), rest.drop len)
    | _ => none
  | .char =>
    if bs.length < c.length then none
    else some (.strV (String.mk ((bs.take c.length).map Char.ofNat)), bs.drop c.length)
  | .bool =>
    match bs with
    | b0 :: rest => some (.boolV (b0 ≠ 0), rest)
    | _ => none

/-! ## Insert path (`DatabaseManager::insertRecord` / `saveRecord`) -/

/-- The per-type default written by `saveRecord` for a column absent from
the input record (lines 330–341): INT 0, FLOAT 0.0, STRING/CHAR empty
string, BOOL false. -/
def defaultValue : ColType → FieldValue
  | .int => .intV 0
  | .float => .fltV ⟨0⟩
  | .string => .strV ""
  | .char => .strV ""
  | .bool => .boolV false

/-- The value `saveRecord` serializes for a column: the record's value if
present, otherwise the typed default. -/
def valueOrDefault (r : Record) (c : Column) : FieldValue :=
  (recLookup r c.name).getD (defaultValue c.type)

/-- The bytes `saveRecord` writes for a column list (lines 321–343):
each column's value-or-default, serialized in declared order. -/
def fieldsBytes (r : Record) : List Column → Option (List Nat)
  | [] => some []
  | c :: cs =>
    match serializeField (valueOrDefault r c) c, fieldsBytes r cs with
    | some b, some rest => some (b ++ rest)
    | _, _ => none

/-- The byte encoding of one record under a schema (`saveRecord`). -/
def recordBytes (schema : TableSchema) (r : Record) : Option (List Nat) :=
  fieldsBytes r schema.columns

/-- Catalog lookup: first table with the given name. -/
def findTable (catalog : List TableSchema) (tname : String) : Option TableSchema :=
  catalog.find? (fun t => t.name = tname)

/-- The first primary-key column of a schema, if any (every pk loop in the
source breaks at the first `is_primary_key` column). -/
def firstPk (schema : TableSchema) : Option Column :=
  schema.columns.find? (fun c => c.is_primary_key)

/-- `DatabaseManager::createIndex` (lines 105–130) on the handle map: a
handle is created only when the schema has a primary-key column; otherwise
the map is unchanged (the function returns after the "No primary key
found" diagnostic). -/
def createIndexM (indexes : List String) (schema : TableSchema) : List String :=
  match firstPk schema with
  | some _ => schema.name :: indexes
  | none => indexes

/-- Outcome of a successful `insertRecord`: the grown data file, the
index-handle map after the lazy `createIndex`, whether a handle for the
table was present at the index step (`indexes[table_name]->insert`), and
the key/offset passed to that step. -/
structure InsertOutcome where
  dataFile : List Nat
  indexes : List String
  handlePresent : Bool
  pkKey : Int
  offset : Nat
deriving DecidableEq, Repr

/-- The primary-key step of `insertRecord` (lines 168–190): with no
primary-key column the key value stays 0; otherwise the record must bind
the primary-key column (else "Record is missing primary key"), the column
must be INT (else "Primary key must be an integer"), and the bound value
must be the int alternative (else `std::get<int>` throws). -/
def pkStepOf (schema : TableSchema) (r : Record) : Option Int :=
  match firstPk schema with
  | none => some 0
  | some col =>
    match recLookup r col.name with
    | none => none
    | some v =>
      if col.type = .int then
        match v with
        | .intV n => some n
        | _ => none
      else none

/-- Does the input record bind the schema's primary-key column (vacuously
true when the schema has none)? -/
def pkPresentB (schema : TableSchema) (r : Record) : Bool :=
  match firstPk schema with
  | none => true
  | some col => (recLookup r col.name).isSome

/-- `DatabaseManager::insertRecord` (lines 150–218).  Fails (`none`) when
the table is unknown, when the primary-key step fails, or when
serialization of a present field hits a variant mismatch.  On success the
record bytes are appended at the end of the data file and the pre-write
offset recorded; the index handle is created lazily before the index
step. -/
def insertRecord (catalog : List TableSchema) (indexes : List String)
    (tname : String) (r : Record) (file : List Nat) : Option InsertOutcome :=
  match findTable catalog tname with
  | none => none
  | some schema =>
    match pkStepOf schema r with
    | none => none
    | some pk =>
      let indexes' :=
        if indexes.contains tname then indexes else createIndexM indexes schema
      match recordBytes schema r with
      | none => none
      | some bs =>
        some { dataFile := file ++ bs,
               indexes := indexes',
               handlePresent := indexes'.contains tname,
               pkKey := pk,
               offset := file.length }

/-- The input record completed with the typed default for every schema
column it does not bind (order of the original bindings preserved). -/
def completeRecord (schema : TableSchema) (r : Record) : Record :=
  r ++ (schema.columns.filter (fun c => (recLookup r c.name).isNone)).map
        (fun c => (c.name, defaultValue c.type))

/-! ## Value-literal parsing (`QueryParser::parseValue`) -/

/-- C locale `isspace`. -/
def isSpaceC (c : Char) : Bool :=
  c = ' ' || c = Char.ofNat 9 || c = Char.ofNat 10 ||
  c = Char.ofNat 11 || c = Char.ofNat 12 || c = Char.ofNat 13

/-- Decimal digit. -/
def isDigitC (c : Char) : Bool :=
  '0' ≤ c && c ≤ '9'

/-- Value of a string of decimal digits. -/
def digitsToNat (l : List Char) : Nat :=
  l.foldl (fun a c => a * 10 + (c.toNat - 48)) 0

/-- Consume an optional leading sign; returns (negative?, rest). -/
def consumeSign (cs : List Char) : Bool × List Char :=
  match cs with
  | [] => (false, [])
  | c :: t =>
    if c = '-' then (true, t)
    else if c = '+' then (false, t)
    else (false, c :: t)

/-- `std::stoi` (via `strtol` base 10): skip whitespace, optional sign,
at least one decimal digit (trailing garbage ignored); fails when no
digits were consumed or the value is outside the 32-bit `int` range
(both exceptions are swallowed by `parseValue`'s `catch (...)`). -/
def stoiOpt (s : String) : Option Int :=
  let cs := s.data.dropWhile isSpaceC
  let sgn := consumeSign cs
  let ds := sgn.2.takeWhile isDigitC
  if ds.isEmpty then none
  else
    let v : Int := if sgn.1 then -(digitsToNat ds : Int) else (digitsToNat ds : Int)
    if v < -(2 ^ 31 : Int) || v ≥ (2 ^ 31 : Int) then none else some v

/-- The exact value of an accepted float literal.  `std::stof` rounds to
binary32; the rounding step is not modelled, the literal's exact rational
value is carried instead (the claims below depend only on which parse
branch is taken, never on rounded float values). -/
inductive FloatLit where
  | finite (q : ℚ)
  | inf (neg : Bool)
  | nan
deriving DecidableEq, Repr

/-- ASCII lower-casing. -/
def lowerC (c : Char) : Char :=
  if 'A' ≤ c && c ≤ 'Z' then Char.ofNat (c.toNat + 32) else c

/-- The smallest magnitude that overflows binary32 under round-to-nearest
even: the midpoint between `FLT_MAX = 2^128 - 2^104` and `2^128` rounds up
(tie to the even candidate), so every value of magnitude `≥ 2^128 - 2^103`
becomes infinity and makes `strtof` set `ERANGE`. -/
def f32OverflowBound : Nat := 2 ^ 128 - 2 ^ 103

/-- Does a decimal literal of magnitude `mant * 10 ^ d` overflow binary32
(round to infinity)?  `f32OverflowBound ≤ mant * 10 ^ d`, written in
integer arithmetic for both signs of `d`. -/
def decOverflows (mant : Nat) (d : Int) : Bool :=
  if 0 ≤ d then f32OverflowBound ≤ mant * 10 ^ d.toNat
  else f32OverflowBound * 10 ^ (-d).toNat ≤ mant

/-- Does a nonzero decimal literal of magnitude `mant * 10 ^ d` round to
zero in binary32?  That is complete underflow: magnitude at most
`2 ^ (-150)`, the midpoint below the smallest positive subnormal
`2 ^ (-149)` (the tie rounds to the even candidate 0).  Written as
`mant * 2 ^ 150 ≤ 10 ^ (-d)` in integer arithmetic; impossible for
`d ≥ 0`. -/
def decUnderflowsToZero (mant : Nat) (d : Int) : Bool :=
  decide (mant ≠ 0) &&
    (if 0 ≤ d then false else mant * 2 ^ 150 ≤ 10 ^ (-d).toNat)

/-- `std::stof` (via `strtof`): skip whitespace, optional sign, then an
`inf`/`nan` form (case-insensitive) or a decimal mantissa with at least
one digit, optionally followed by an exponent (`e`/`E`, optional sign,
digits — consumed only when at least one exponent digit follows).  Fails
when no conversion is possible, and also — surfacing as
`std::out_of_range` from `errno = ERANGE`, caught by `parseValue`'s
`catch (...)` like any other failure — when the literal's value is
outside the binary32 range: magnitude at or beyond the overflow boundary
(rounds to infinity, e.g. `.5e100` or a 40-digit literal), or nonzero at
or below `2 ^ (-150)` (rounds to zero).  For results in the subnormal
range strictly between those bounds C11 7.22.1.3 leaves `ERANGE`
implementation-defined; the model accepts such literals, following the
project's MSVC target.  The C99 hexadecimal-float form (`0x...`) is
omitted: any token beginning with a digit is already accepted by
`stoiOpt`, so that form is unreachable from `parseValue`. -/
def stofOpt (s : String) : Option FloatLit :=
  let cs := s.data.dropWhile isSpaceC
  let sgn := consumeSign cs
  let cs2 := sgn.2
  if (cs2.take 3).map lowerC = ['i', 'n', 'f'] then some (.inf sgn.1)
  else if (cs2.take 3).map lowerC = ['n', 'a', 'n'] then some .nan
  else
    let ip := cs2.takeWhile isDigitC
    let r1 := cs2.drop ip.length
    let dotted : Bool := decide (r1.head? = some '.')
    let fp := if dotted then (r1.drop 1).takeWhile isDigitC else []
    let r2 := if dotted then (r1.drop 1).drop fp.length else r1
    if ip.length + fp.length = 0 then none
    else
      let e : Int :=
        match r2 with
        | c :: t =>
          if lowerC c = 'e' then
            let esgn := consumeSign t
            let eds := esgn.2.takeWhile isDigitC
            if eds.isEmpty then 0
            else if esgn.1 then -(digitsToNat eds : Int) else (digitsToNat eds : Int)
          else 0
        | [] => 0
      let mant : Nat := digitsToNat (ip ++ fp)
      let d : Int := e - (fp.length : Int)
      if decOverflows mant d || decUnderflowsToZero mant d then none
      else
        let sgned : Int := if sgn.1 then -(mant : Int) else (mant : Int)
        some (.finite ((sgned : ℚ) * (10 : ℚ) ^ d))

/-- Strip one pair of surrounding single quotes
(`str.front() == quote && str.back() == quote` then
`substr(1, len - 2)`); a lone quote character becomes the empty string. -/
def stripQuotes (s : String) : String :=
  match s.data with
  | [] => s
  | c :: cs =>
    if c = Char.ofNat 39 && (c :: cs).getLast (by simp) = Char.ofNat 39 then
      String.mk ((c :: cs).drop 1).dropLast
    else s

/-- The parser's value type: like `FieldValue` but carrying the exact
float-literal value (binary32 rounding not modelled, see `FloatLit`). -/
inductive ParsedField where
  | intV (n : Int)
  | fltV (f : FloatLit)
  | strV (s : String)
  | boolV (b : Bool)
deriving DecidableEq, Repr

/-- `QueryParser::parseValue` (query_parser.cpp lines 1038–1059): try
`stoi`, then `stof`, then the exact strings `true`/`TRUE`/`false`/`FALSE`,
else a string with surrounding single quotes stripped. -/
def parseValue (s : String) : ParsedField :=
  match stoiOpt s with
  | some n => .intV n
  | none =>
    match stofOpt s with
    | some f => .fltV f
    | none =>
      if s = "true" || s = "TRUE" then .boolV true
      else if s = "false" || s = "FALSE" then .boolV false
      else .strV (stripQuotes s)

/-! ## Search paths (`searchRecords`, `searchRecordsAdvanced`)

Record-level model: a data file is the list of the fixed-width records it
contains, and an offset is the record's position in that list. -/

/-- The per-record match criterion used by the sequential scans:
`record.find(kc) != end && record[kc] == kv`. -/
def recordMatches (kc : String) (kv : FieldValue) (r : Record) : Bool :=
  match recLookup r kc with
  | none => false
  | some v => fvEq v kv

/-- One WHERE comparison holds of a record: the column is present and
`compareValues` accepts (absent column ⇒ false). -/
def condHolds (r : Record) (cond : String × FieldValue × String) : Bool :=
  match recLookup r cond.1 with
  | none => false
  | some v => compareValues v cond.2.1 cond.2.2

/-- Sequential-scan branch of `DatabaseManager::searchRecords`
(lines 272–287): every record whose `key_column` equals the key. -/
def scanSearchRecords (file : List Record) (kc : String) (kv : FieldValue) :
    List Record :=
  file.filter (recordMatches kc kv)

/-- Index-assisted branch of `DatabaseManager::searchRecords`
(lines 263–271): seek to each offset the index returned and load the
record there (offsets outside the file are skipped — under the
consistency hypothesis used below they never occur). -/
def indexSearchRecords (file : List Record) (offsets : List Nat) : List Record :=
  offsets.filterMap (fun o => file[o]?)

/-- The offsets of records matching a predicate, counted from `start`. -/
def matchingIdxsAux (p : Record → Bool) : List Record → Nat → List Nat
  | [], _ => []
  | r :: rest, i =>
    if p r then i :: matchingIdxsAux p rest (i + 1)
    else matchingIdxsAux p rest (i + 1)

/-- Index consistency for a point query: the index returns exactly the
offsets of the records whose `key_column` equals the key (spec §8,
invariant 2). -/
def consistentOffsets (file : List Record) (kc : String) (kv : FieldValue)
    (offsets : List Nat) : Prop :=
  offsets = matchingIdxsAux (recordMatches kc kv) file 0

/-- `DatabaseManager::searchRecordsAdvanced` (lines 839–946).  Conditions
are `(column, value, op)` triples in the C++ tuple order.  Returns the
use-index decision together with the result list.  The fast path is taken
iff the condition list is non-empty, its first condition is `pk = <int>`
and an index handle exists; it then checks conditions 1.. on each record
the index retrieves.  The slow path scans and checks all conditions. -/
def searchRecordsAdvanced (schema : TableSchema) (hasIndex : Bool)
    (idx : Int → List Nat) (file : List Record)
    (conds : List (String × FieldValue × String)) : Bool × List Record :=
  let pkName := ((firstPk schema).map (fun c => c.name)).getD ""
  let useIdx : Bool :=
    match conds with
    | [] => false
    | (c, v, o) :: _ =>
      decide (c = pkName) && decide (o = "=") && decide (v.tag = 0) && hasIndex
  if useIdx then
    match conds with
    | (_, .intV k, _) :: rest =>
      (true, (idx k).filterMap (fun o =>
        (file.get? o).bind (fun r =>
          if rest.all (condHolds r) then some r else none)))
    | _ => (true, [])
  else
    (false, file.filter (fun r => conds.all (condHolds r)))

/-! ## Update / delete (`updateRecord`, `deleteRecord`) -/

/-- Apply a SET map to a record (`record[col] = val` per entry). -/
def applySet (r : Record) (vals : List (String × FieldValue)) : Record :=
  vals.foldl (fun acc kv => recSet acc kv.1 kv.2) r

/-- Outcome of `updateRecord`/`deleteRecord`: the success flag, the final
contents of `<table>.dat`, the final contents of `<table>.dat.tmp`
(`none` = the temp file does not exist any more), whether the B+ tree
index was rebuilt, and the diagnostic text. -/
structure RewriteOutcome where
  success : Bool
  dataFile : List Record
  tempFile : Option (List Record)
  indexRebuilt : Bool
  message : String
deriving DecidableEq, Repr

/-- `DatabaseManager::updateRecord` (lines 483–634), record-level.  Every
record matching `key_column == key_value` gets the SET map applied while
streaming into the temp file; with no match the temp file is removed, the
original kept and failure reported.  On success the temp file is renamed
over the data file, and the index is rebuilt only when the SET map binds
the primary-key column (`primary_key_changed`) and an index handle
exists. -/
def updateRecordM (schema : TableSchema) (hasIndex : Bool) (file : List Record)
    (kc : String) (kv : FieldValue) (newVals : List (String × FieldValue)) :
    RewriteOutcome :=
  let pkName := ((firstPk schema).map (fun c => c.name)).getD ""
  let recordFound := file.any (recordMatches kc kv)
  let newFile := file.map (fun r =>
    if recordMatches kc kv r then applySet r newVals else r)
  if ¬ recordFound then
    { success := false, dataFile := file, tempFile := none,
      indexRebuilt := false, message := "No record found matching the criteria" }
  else
    let pkChanged : Bool :=
      decide (pkName ≠ "") && (recLookup newVals pkName).isSome
    { success := true, dataFile := newFile, tempFile := none,
      indexRebuilt := pkChanged && hasIndex, message := "" }

/-- `DatabaseManager::deleteRecord` (lines 636–776), record-level.
Matching records are skipped while streaming into the temp file; with no
match the temp file is removed, the original kept and failure reported.
On success the temp file is renamed over the data file, and the index is
rebuilt when at least one deleted record carried the primary-key field
(`deleted_keys` non-empty) and an index handle exists. -/
def deleteRecordM (schema : TableSchema) (hasIndex : Bool) (file : List Record)
    (kc : String) (kv : FieldValue) : RewriteOutcome :=
  let pkName := ((firstPk schema).map (fun c => c.name)).getD ""
  let foundRecord := file.any (recordMatches kc kv)
  let kept := file.filter (fun r => ¬ recordMatches kc kv r)
  if ¬ foundRecord then
    { success := false, dataFile := file, tempFile := none,
      indexRebuilt := false, message := "No record found matching the criteria" }
  else
    let deletedKeyFound : Bool :=
      decide (pkName ≠ "") &&
        file.any (fun r => recordMatches kc kv r && (recLookup r pkName).isSome)
    { success := true, dataFile := kept, tempFile := none,
      indexRebuilt := deletedKeyFound && hasIndex, message := "" }

/-! ## Executor result envelope (`QueryParser::execute`) -/

/-- The statement-level result envelope fields relevant to the claims. -/
structure QueryResult where
  success : Bool
  errorMessage : String
  recordsFound : Nat
deriving DecidableEq, Repr

/-- The SELECT-without-JOIN-without-WHERE branch of `QueryParser::execute`
(query_parser.cpp lines 279–285 and 309–315, envelope at 375–380): a
missing table fails with a message; an existing table returns all its
records with `success` left true, setting the descriptive "No records
found" message when the result list is empty. -/
def executeSelectNoJoin (catalog : List TableSchema) (tname : String)
    (file : List Record) : QueryResult :=
  match findTable catalog tname with
  | none =>
    { success := false,
      errorMessage := "Table '" ++ tname ++ "' does not exist",
      recordsFound := 0 }
  | some _ =>
    if file.isEmpty then
      { success := true,
        errorMessage := "No records found in table '" ++ tname ++ "'",
        recordsFound := 0 }
    else
      { success := true, errorMessage := "", recordsFound := file.length }

/-- The INSERT branch of `QueryParser::execute` (lines 265–278): delegate
to `insertRecord` and set the failure message when it reports failure. -/
def executeInsertCmd (catalog : List TableSchema) (indexes : List String)
    (tname : String) (r : Record) (file : List Nat) : QueryResult :=
  match insertRecord catalog indexes tname r file with
  | some _ => { success := true, errorMessage := "", recordsFound := 0 }
  | none =>
    { success := false,
      errorMessage := "Failed to insert record into table '" ++ tname ++ "'",
      recordsFound := 0 }

/-! ## Supporting lemmas -/

theorem recLookup_append_some {r : Record} {n : String} {v : FieldValue}
    (l : Record) (h : recLookup r n = some v) :
    recLookup (r ++ l) n = some v := by
  induction r with
  | nil => simp [recLookup] at h
  | cons a rest ih =>
    obtain ⟨k, w⟩ := a
    by_cases hk : k = n
    · simp_all [recLookup]
    · simpa [recLookup, hk] using ih (by simpa [recLookup, hk] using h)

theorem recLookup_append_none {r : Record} {n : String}
    (l : Record) (h : recLookup r n = none) :
    recLookup (r ++ l) n = recLookup l n := by
  induction r with
  | nil => simp
  | cons a rest ih =>
    obtain ⟨k, w⟩ := a
    by_cases hk : k = n
    · simp [recLookup, hk] at h
    · simpa [recLookup, hk] using ih (by simpa [recLookup, hk] using h)

theorem recLookup_defaults {c : Column} :
    ∀ (cols : List Column), c ∈ cols →
    (∀ c' ∈ cols, c'.name = c.name → c' = c) →
    recLookup (cols.map fun d => (d.name, defaultValue d.type)) c.name
      = some (defaultValue c.type) := by
  intro cols
  induction cols with
  | nil => intro h; simp at h
  | cons d rest ih =>
    intro hmem huniq
    by_cases hd : d.name = c.name
    · have : d = c := huniq d (by simp) hd
      simp [recLookup, this]
    · have hc : c ∈ rest := by
        rcases List.mem_cons.mp hmem with h | h
        · exact absurd (congrArg Column.name h.symm) hd
        · exact h
      simpa [recLookup, hd] using
        ih hc (fun c' h' => huniq c' (List.mem_cons_of_mem _ h'))

theorem valueOrDefault_complete (schema : TableSchema) (r : Record)
    (hnodup : (schema.columns.map Column.name).Nodup)
    {c : Column} (hc : c ∈ schema.columns) :
    valueOrDefault (completeRecord schema r) c = valueOrDefault r c := by
  unfold valueOrDefault completeRecord
  cases h : recLookup r c.name with
  | some v => rw [recLookup_append_some _ h]
  | none =>
    rw [recLookup_append_none _ h]
    have hcf : c ∈ schema.columns.filter (fun d => (recLookup r d.name).isNone) :=
      List.mem_filter.mpr ⟨hc, by simp [h]⟩
    rw [recLookup_defaults _ hcf]
    · simp
    · intro c' h' hname
      exact List.inj_on_of_nodup_map hnodup
        (List.mem_of_mem_filter h') hc hname

theorem fieldsBytes_complete (schema : TableSchema) (r : Record)
    (hnodup : (schema.columns.map Column.name).Nodup) :
    ∀ (cols : List Column), (∀ c ∈ cols, c ∈ schema.columns) →
    fieldsBytes (completeRecord schema r) cols = fieldsBytes r cols := by
  intro cols
  induction cols with
  | nil => intro _; rfl
  | cons c rest ih =>
    intro hsub
    have hval := valueOrDefault_complete schema r hnodup (hsub c (by simp))
    have hrest := ih (fun d hd => hsub d (List.mem_cons_of_mem _ hd))
    simp [fieldsBytes, hval, hrest]

theorem recordBytes_complete (schema : TableSchema) (r : Record)
    (hnodup : (schema.columns.map Column.name).Nodup) :
    recordBytes schema (completeRecord schema r) = recordBytes schema r :=
  fieldsBytes_complete schema r hnodup schema.columns (fun _ h => h)

theorem pkStepOf_complete (schema : TableSchema) (r : Record)
    (hpk : pkPresentB schema r = true) :
    pkStepOf schema (completeRecord schema r) = pkStepOf schema r := by
  unfold pkStepOf
  cases hfp : firstPk schema with
  | none => rfl
  | some col =>
    have hs : (recLookup r col.name).isSome := by
      simpa [pkPresentB, hfp] using hpk
    obtain ⟨v, hv⟩ := Option.isSome_iff_exists.mp hs
    have h2 : recLookup (completeRecord schema r) col.name = some v :=
      recLookup_append_some _ hv
    simp [h2, hv]

theorem findTable_name {catalog : List TableSchema} {tname : String}
    {schema : TableSchema} (h : findTable catalog tname = some schema) :
    schema.name = tname := by
  have := List.find?_some h
  simpa using this

/-! ## Claim theorems -/

/-- C1.  For every insert into an existing table: (a) if the primary-key
column is absent from the input record, `insertRecord` fails without
touching the data file (it returns `none`, producing no appended bytes);
(b) when the primary-key column is present (or the schema has none), the
insert behaves exactly as if every absent column had been bound to its
typed default (INT 0, FLOAT 0.0, STRING/CHAR empty string, BOOL false)
beforehand — absent columns are written with their typed defaults. -/
theorem insertRecord_missing_pk_fails_and_absent_columns_get_defaults
    (catalog : List TableSchema) (indexes : List String) (tname : String)
    (r : Record) (file : List Nat) (schema : TableSchema)
    (hfind : findTable catalog tname = some schema) :
    (∀ c, firstPk schema = some c → recLookup r c.name = none →
      insertRecord catalog indexes tname r file = none) ∧
    ((schema.columns.map Column.name).Nodup → pkPresentB schema r = true →
      insertRecord catalog indexes tname r file
        = insertRecord catalog indexes tname (completeRecord schema r) file) := by
  constructor
  · intro c hc hnone
    simp [insertRecord, hfind, pkStepOf, hc, hnone]
  · intro hnodup hpk
    simp [insertRecord, hfind, pkStepOf_complete schema r hpk,
      recordBytes_complete schema r hnodup]

/-- C10.  (a) If the schema's primary-key column has type INT and the
record binds it to an int, `insertRecord` reaches the index step with the
handle present (created lazily beforehand if absent), so the
missing-handle branch is unreachable; (b) for a schema with no
primary-key column, `insertRecord` still reaches the index step but no
handle is ever created for the table. -/
theorem insertRecord_index_handle_present_iff_pk
    (catalog : List TableSchema) (indexes : List String) (tname : String)
    (r : Record) (file : List Nat) (schema : TableSchema)
    (hfind : findTable catalog tname = some schema) :
    (∀ c k bs, firstPk schema = some c → c.type = .int →
      recLookup r c.name = some (.intV k) → recordBytes schema r = some bs →
      ∃ o, insertRecord catalog indexes tname r file = some o ∧
        o.handlePresent = true) ∧
    (∀ bs, firstPk schema = none → indexes.contains tname = false →
      recordBytes schema r = some bs →
      ∃ o, insertRecord catalog indexes tname r file = some o ∧
        o.handlePresent = false ∧ o.indexes = indexes) := by
  have hname : schema.name = tname := findTable_name hfind
  constructor
  · intro c k bs hc htype hv hbs
    have hins : insertRecord catalog indexes tname r file =
        some { dataFile := file ++ bs,
               indexes :=
                 if indexes.contains tname then indexes
                 else createIndexM indexes schema,
               handlePresent :=
                 (if indexes.contains tname then indexes
                  else createIndexM indexes schema).contains tname,
               pkKey := k, offset := file.length } := by
      simp [insertRecord, hfind, pkStepOf, hc, hv, htype, hbs]
    refine ⟨_, hins, ?_⟩
    by_cases hmem : tname ∈ indexes
    · simp [hmem]
    · simp [hmem, createIndexM, hc, hname]
  · intro bs hnopk hidx hbs
    have hins : insertRecord catalog indexes tname r file =
        some { dataFile := file ++ bs,
               indexes :=
                 if indexes.contains tname then indexes
                 else createIndexM indexes schema,
               handlePresent :=
                 (if indexes.contains tname then indexes
                  else createIndexM indexes schema).contains tname,
               pkKey := 0, offset := file.length } := by
      simp [insertRecord, hfind, pkStepOf, hnopk, hbs]
    have hmem : tname ∉ indexes := by simpa using hidx
    refine ⟨_, hins, ?_, ?_⟩
    · simp [createIndexM, hnopk, hmem]
    · simp [createIndexM, hnopk]

/-- A concrete two-column table: INT primary key `id`, STRING(5) `name`. -/
def tblT : TableSchema :=
  { name := "t",
    columns :=
      [ { name := "id", type := .int, length := 0, is_primary_key := true },
        { name := "name", type := .string, length := 5, is_primary_key := false } ] }

/-- A concrete table with no primary-key column. -/
def tblNoPk : TableSchema :=
  { name := "u",
    columns := [ { name := "x", type := .int, length := 0, is_primary_key := false } ] }

/-- Witness for the C1 theorem at concrete inputs: inserting a record
without `id` into `t` fails; inserting `{id: 1}` equals inserting the
default-completed record. -/
theorem insertRecord_defaults_witness :
    insertRecord [tblT] [] "t" [("name", FieldValue.strV "x")] [] = none ∧
    insertRecord [tblT] [] "t" [("id", FieldValue.intV 1)] []
      = insertRecord [tblT] [] "t"
          (completeRecord tblT [("id", FieldValue.intV 1)]) [] := by
  have h1 := insertRecord_missing_pk_fails_and_absent_columns_get_defaults
    [tblT] [] "t" [("name", FieldValue.strV "x")] [] tblT rfl
  have h2 := insertRecord_missing_pk_fails_and_absent_columns_get_defaults
    [tblT] [] "t" [("id", FieldValue.intV 1)] [] tblT rfl
  exact ⟨h1.1 _ rfl rfl, h2.2 (by decide) rfl⟩

/-- Witness for the C10 theorem at concrete inputs: insert into `t`
reaches the index step with a handle; insert into the pk-less `u`
reaches it with none. -/
theorem insertRecord_index_handle_witness :
    (∃ o, insertRecord [tblT] [] "t" [("id", FieldValue.intV 1)] [] = some o ∧
      o.handlePresent = true) ∧
    (∃ o, insertRecord [tblNoPk] [] "u" [("x", FieldValue.intV 2)] [] = some o ∧
      o.handlePresent = false ∧ o.indexes = []) := by
  have ha := (insertRecord_index_handle_present_iff_pk
    [tblT] [] "t" [("id", FieldValue.intV 1)] [] tblT rfl).1
  have hb := (insertRecord_index_handle_present_iff_pk
    [tblNoPk] [] "u" [("x", FieldValue.intV 2)] [] tblNoPk rfl).2
  exact ⟨ha _ 1 _ rfl rfl rfl rfl, hb _ rfl rfl rfl⟩

/-- The STRING(n) encoding exactly as the spec sentence words it
(modelled from the spec for the refinement comparison): a 4-byte prefix
holding `min(actual length, n)` followed by the `n` payload bytes. -/
def claimedStringEnc (s : String) (n : Nat) : List Nat :=
  natLE4 (min s.data.length n) ++ strPayload s n

/-- The string value a STRING(n)/CHAR(n) field actually holds after
truncation/NUL-padding to `n`. -/
def padStr (s : String) (n : Nat) : String :=
  String.mk (s.data.take n ++ List.replicate (n - s.data.length) (Char.ofNat 0))

/-- A concrete STRING(n) column. -/
def strCol (n : Nat) : Column :=
  { name := "s", type := .string, length := n, is_primary_key := false }

/-- Counterexample to C2 at `v = "a"`, `n = 3`: the code writes length
prefix 3 (the column length), not `min(1, 3) = 1` as claimed. -/
theorem serializeField_string_prefix_counterexample :
    serializeField (.strV "a") (strCol 3) = some [3, 0, 0, 0, 97, 0, 0] ∧
    claimedStringEnc "a" 3 = [1, 0, 0, 0, 97, 0, 0] ∧
    serializeField (.strV "a") (strCol 3) ≠ some (claimedStringEnc "a" 3) := by
  refine ⟨by decide, by decide, ?_⟩
  decide

theorem decodeNat4_natLE4 (n : Nat) (hn : n < 2 ^ 32) :
    decodeNat4 (n % 256) (n / 256 % 256) (n / 256 ^ 2 % 256) (n / 256 ^ 3 % 256)
      = n := by
  simp only [decodeNat4]
  omega

theorem strPayload_length (s : String) (n : Nat) :
    (strPayload s n).length = n := by
  simp [strPayload]
  omega

/-- C2 (amended).  The on-disk STRING(n) encoding is a 4-byte prefix that
always holds `n` (not `min(|v|, n)`), followed by exactly `n` payload
bytes, the value truncated or NUL-padded to `n`; deserializing those
bytes yields the padded value and consumes exactly `4 + n` bytes. -/
theorem serializeField_string_encoding
    (s : String) (n : Nat) (c : Column) (htype : c.type = .string)
    (hlen : c.length = n) (hn : n < 2 ^ 31)
    (hchars : ∀ ch ∈ s.data, ch.toNat < 256) :
    serializeField (.strV s) c = some (natLE4 n ++ strPayload s n) ∧
    (natLE4 n ++ strPayload s n).length = 4 + n ∧
    ∀ extra, deserializeFieldB c ((natLE4 n ++ strPayload s n) ++ extra)
      = some (.strV (padStr s n), extra) := by
  have hplen : (strPayload s n).length = n := strPayload_length s n
  refine ⟨by simp [serializeField, htype, hlen],
    by simp [natLE4, hplen]; omega, ?_⟩
  intro extra
  have hdec : decodeI32 (n % 256) (n / 256 % 256) (n / 256 ^ 2 % 256)
      (n / 256 ^ 3 % 256) = (n : Int) := by
    have h32 : n < 2 ^ 32 := by omega
    simp only [decodeI32, decodeNat4_natLE4 n h32]
    have hlit : n < 2147483648 := by omega
    simp [hlit]
  have hrest : ¬ ((strPayload s n ++ extra).length < n) := by
    simp [hplen]
  have htake : (strPayload s n ++ extra).take n = strPayload s n :=
    List.take_left' hplen
  have hdrop : (strPayload s n ++ extra).drop n = extra :=
    List.drop_left' hplen
  have hmap : (strPayload s n).map Char.ofNat
      = s.data.take n ++ List.replicate (n - s.data.length) (Char.ofNat 0) := by
    simp only [strPayload, List.map_append, List.map_map, List.map_replicate]
    congr 1
    have : ∀ ch ∈ s.data.take n, Char.ofNat (ch.toNat % 256) = ch := by
      intro ch hch
      have hlt := hchars ch (List.mem_of_mem_take hch)
      rw [Nat.mod_eq_of_lt hlt, Char.ofNat_toNat]
    calc (s.data.take n).map (Char.ofNat ∘ fun ch => ch.toNat % 256)
        = (s.data.take n).map id := List.map_congr_left this
      _ = s.data.take n := List.map_id _
  show deserializeFieldB c
      (n % 256 :: n / 256 % 256 :: n / 256 ^ 2 % 256 :: n / 256 ^ 3 % 256 ::
        (strPayload s n ++ extra)) = some (.strV (padStr s n), extra)
  simp only [deserializeFieldB, htype, hdec]
  have hnn : ¬ ((n : Int) < 0) := by omega
  simp [hnn, hrest, htake, hdrop, hmap, padStr, hplen]

/-- Witness for the C2 amended theorem at `s = "ab"`, `n = 3`,
`extra = [9]`. -/
theorem serializeField_string_encoding_witness :
    serializeField (.strV "ab") (strCol 3) = some (natLE4 3 ++ strPayload "ab" 3) ∧
    (natLE4 3 ++ strPayload "ab" 3).length = 4 + 3 ∧
    deserializeFieldB (strCol 3) ((natLE4 3 ++ strPayload "ab" 3) ++ [9])
      = some (.strV (padStr "ab" 3), [9]) := by
  have h := serializeField_string_encoding "ab" 3 (strCol 3) rfl rfl
    (by decide) (by decide)
  exact ⟨h.1, h.2.1, h.2.2 [9]⟩

/-- C3.  Comparisons across differing variant tags evaluate to `false`
for every operator (never an error); with matching tags the bool
alternative has no ordering (always `false`), while ordering is defined
for ints, floats and strings, the latter lexicographically. -/
theorem compareValues_cross_tag_and_ordering :
    (∀ (l r : FieldValue) (op : String), l.tag ≠ r.tag →
      compareValues l r op = false) ∧
    (∀ (a b : Bool) (op : String), op ∈ [">", "<", ">=", "<="] →
      compareValues (.boolV a) (.boolV b) op = false) ∧
    (∀ (a b : Int),
      compareValues (.intV a) (.intV b) ">" = decide (a > b) ∧
      compareValues (.intV a) (.intV b) "<" = decide (a < b) ∧
      compareValues (.intV a) (.intV b) ">=" = decide (a ≥ b) ∧
      compareValues (.intV a) (.intV b) "<=" = decide (a ≤ b)) ∧
    (∀ (a b : Float32),
      compareValues (.fltV a) (.fltV b) ">" = f32Lt b a ∧
      compareValues (.fltV a) (.fltV b) "<" = f32Lt a b ∧
      compareValues (.fltV a) (.fltV b) ">=" = f32Le b a ∧
      compareValues (.fltV a) (.fltV b) "<=" = f32Le a b) ∧
    (∀ (a b : String),
      compareValues (.strV a) (.strV b) ">" = lexLt b.data a.data ∧
      compareValues (.strV a) (.strV b) "<" = lexLt a.data b.data ∧
      compareValues (.strV a) (.strV b) ">=" = lexLe b.data a.data ∧
      compareValues (.strV a) (.strV b) "<=" = lexLe a.data b.data) := by
  refine ⟨?_, ?_, ?_, ?_, ?_⟩
  · intro l r op h
    simp [compareValues, h]
  · intro a b op hop
    fin_cases hop <;> rfl
  · exact fun a b => ⟨rfl, rfl, rfl, rfl⟩
  · exact fun a b => ⟨rfl, rfl, rfl, rfl⟩
  · exact fun a b => ⟨rfl, rfl, rfl, rfl⟩

/-- Witness for the C3 theorem at concrete inputs. -/
theorem compareValues_witness :
    compareValues (.intV 0) (.strV "0") "=" = false ∧
    compareValues (.boolV true) (.boolV false) "<" = false ∧
    compareValues (.intV 2) (.intV 1) ">" = decide ((2 : Int) > 1) := by
  refine ⟨compareValues_cross_tag_and_ordering.1 _ _ _ (by decide),
    compareValues_cross_tag_and_ordering.2.1 true false "<" (by simp),
    (compareValues_cross_tag_and_ordering.2.2.1 2 1).1⟩

theorem stoiOpt_quote {s : String} {cs : List Char}
    (h : s.data = Char.ofNat 39 :: cs) : stoiOpt s = none := by
  have h1 : isSpaceC (Char.ofNat 39) = false := rfl
  have h2 : Char.ofNat 39 ≠ '-' := by decide
  have h3 : Char.ofNat 39 ≠ '+' := by decide
  have h4 : isDigitC (Char.ofNat 39) = false := rfl
  simp [stoiOpt, h, h1, h2, h3, h4, consumeSign]

theorem stofOpt_quote {s : String} {cs : List Char}
    (h : s.data = Char.ofNat 39 :: cs) : stofOpt s = none := by
  have h1 : isSpaceC (Char.ofNat 39) = false := rfl
  have h2 : Char.ofNat 39 ≠ '-' := by decide
  have h3 : Char.ofNat 39 ≠ '+' := by decide
  have h4 : isDigitC (Char.ofNat 39) = false := rfl
  have h5 : lowerC (Char.ofNat 39) = Char.ofNat 39 := rfl
  have h6 : Char.ofNat 39 ≠ 'i' := by decide
  have h7 : Char.ofNat 39 ≠ 'n' := by decide
  have h8 : Char.ofNat 39 ≠ '.' := by decide
  simp [stofOpt, h, h1, h2, h3, h4, h5, h6, h7, h8, consumeSign]

theorem string_ne_of_data_head {s t : String} {c : Char} {cs : List Char}
    (h : s.data = c :: cs) (hc : t.data.head? ≠ some c) : s ≠ t := by
  intro he
  subst he
  rw [h] at hc
  simp at hc

/-- Counterexample to C4: `true`/`false` recognition is NOT
case-insensitive — the mixed-case token `True` parses as the string
`"True"`, not as the boolean `true`. -/
theorem parseValue_mixed_case_bool_counterexample :
    parseValue "True" = .strV "True" ∧ parseValue "True" ≠ .boolV true := by
  constructor
  · rfl
  · decide

/-- C4 (amended).  Literal parsing tries integer first, then float, then
boolean, then string: (a) an int-parseable token yields that int; (b)
otherwise a float-parseable token yields that float; (c) otherwise
exactly the tokens `true`/`TRUE`/`false`/`FALSE` yield booleans (the
match is case-SENSITIVE on those two spellings, not case-insensitive)
and everything else yields a string with surrounding single quotes
stripped; (d) a single-quoted literal always yields a string with the
quotes stripped. -/
theorem parseValue_priority_and_quoting :
    (∀ (s : String) (n : Int), stoiOpt s = some n → parseValue s = .intV n) ∧
    (∀ (s : String) (f : FloatLit), stoiOpt s = none → stofOpt s = some f →
      parseValue s = .fltV f) ∧
    (∀ s : String, stoiOpt s = none → stofOpt s = none →
      ((s = "true" ∨ s = "TRUE") → parseValue s = .boolV true) ∧
      ((s = "false" ∨ s = "FALSE") → parseValue s = .boolV false) ∧
      (s ≠ "true" → s ≠ "TRUE" → s ≠ "false" → s ≠ "FALSE" →
        parseValue s = .strV (stripQuotes s))) ∧
    (∀ (s : String) (cs : List Char), s.data = Char.ofNat 39 :: cs →
      parseValue s = .strV (stripQuotes s)) := by
  refine ⟨?_, ?_, ?_, ?_⟩
  · intro s n h
    simp [parseValue, h]
  · intro s f h1 h2
    simp [parseValue, h1, h2]
  · intro s h1 h2
    refine ⟨?_, ?_, ?_⟩
    · rintro (rfl | rfl) <;> simp [parseValue, h1, h2]
    · rintro (rfl | rfl) <;> simp [parseValue, h1, h2]
    · intro n1 n2 n3 n4
      simp [parseValue, h1, h2, n1, n2, n3, n4]
  · intro s cs h
    have n1 : s ≠ "true" := string_ne_of_data_head h (by decide)
    have n2 : s ≠ "TRUE" := string_ne_of_data_head h (by decide)
    have n3 : s ≠ "false" := string_ne_of_data_head h (by decide)
    have n4 : s ≠ "FALSE" := string_ne_of_data_head h (by decide)
    simp [parseValue, stoiOpt_quote h, stofOpt_quote h, n1, n2, n3, n4]

/-- Witness for the C4 amended theorem at concrete tokens. -/
theorem parseValue_priority_witness :
    parseValue "7" = .intV 7 ∧
    parseValue ".5" = .fltV (.finite ((5 : ℚ) * (10 : ℚ) ^ (0 - (1 : Int)))) ∧
    parseValue "TRUE" = .boolV true ∧
    parseValue "'John'" = .strV (stripQuotes "'John'") := by
  refine ⟨parseValue_priority_and_quoting.1 "7" 7 rfl,
    parseValue_priority_and_quoting.2.1 ".5" _ rfl rfl,
    (parseValue_priority_and_quoting.2.2.1 "TRUE" rfl rfl).1 (Or.inr rfl),
    parseValue_priority_and_quoting.2.2.2 "'John'"
      ['J', 'o', 'h', 'n', Char.ofNat 39] (by decide)⟩

theorem searchRecordsAdvanced_fst_eq (schema : TableSchema) (hasIndex : Bool)
    (idx : Int → List Nat) (file : List Record)
    (c0 : String) (v0 : FieldValue) (o0 : String)
    (rest : List (String × FieldValue × String)) (pkc : Column)
    (hpk : firstPk schema = some pkc) :
    (searchRecordsAdvanced schema hasIndex idx file ((c0, v0, o0) :: rest)).1
      = (decide (c0 = pkc.name) && decide (o0 = "=") &&
          decide (v0.tag = 0) && hasIndex) := by
  have hname : ((firstPk schema).map (fun c => c.name)).getD "" = pkc.name := by
    simp [hpk]
  simp only [searchRecordsAdvanced, hname]
  by_cases hu : (decide (c0 = pkc.name) && decide (o0 = "=") &&
      decide (v0.tag = 0) && hasIndex) = true
  · have h3 : v0.tag = 0 := by
      simp [Bool.and_eq_true] at hu
      exact hu.1.2
    rcases v0 with k | f | st | b <;> simp [FieldValue.tag] at h3
    simp [hu]
  · have hu' : (decide (c0 = pkc.name) && decide (o0 = "=") &&
        decide (v0.tag = 0) && hasIndex) = false := by
      simpa using hu
    simp [hu']

/-- C5.  The primary-key index is used iff the condition list is
non-empty, its first condition is `pk = <int literal>`, and an index
handle exists; on that fast path every returned record additionally
satisfies all remaining conditions. -/
theorem searchRecordsAdvanced_index_use_iff
    (schema : TableSchema) (hasIndex : Bool) (idx : Int → List Nat)
    (file : List Record) (conds : List (String × FieldValue × String))
    (pkc : Column) (hpk : firstPk schema = some pkc) :
    ((searchRecordsAdvanced schema hasIndex idx file conds).1 = true ↔
      hasIndex = true ∧
        ∃ k rest, conds = (pkc.name, FieldValue.intV k, "=") :: rest) ∧
    ((searchRecordsAdvanced schema hasIndex idx file conds).1 = true →
      ∀ r ∈ (searchRecordsAdvanced schema hasIndex idx file conds).2,
        ∀ cond ∈ conds.drop 1, condHolds r cond = true) := by
  rcases conds with _ | ⟨⟨c0, v0, o0⟩, rest⟩
  · constructor
    · simp [searchRecordsAdvanced]
    · intro _ r _ cond hcond
      simp at hcond
  · have hfst := searchRecordsAdvanced_fst_eq schema hasIndex idx file
      c0 v0 o0 rest pkc hpk
    constructor
    · rw [hfst]
      constructor
      · intro h
        simp [Bool.and_eq_true] at h
        obtain ⟨⟨⟨h1, h2⟩, h3⟩, h4⟩ := h
        rcases v0 with k | f | st | b <;> simp [FieldValue.tag] at h3
        exact ⟨h4, k, rest, by simp [h1, h2]⟩
      · rintro ⟨h4, k, rest', heq⟩
        simp at heq
        obtain ⟨⟨hc, hv, ho⟩, hrest⟩ := heq
        subst hc; subst hv; subst ho
        simp [FieldValue.tag, h4]
    · intro h r hr cond hcond
      rw [hfst] at h
      simp [Bool.and_eq_true] at h
      obtain ⟨⟨⟨h1, h2⟩, h3⟩, h4⟩ := h
      rcases v0 with k | f | st | b <;> simp [FieldValue.tag] at h3
      simp only [List.drop_succ_cons, List.drop_zero] at hcond
      simp [searchRecordsAdvanced, hpk, h1, h2, h4, FieldValue.tag] at hr
      obtain ⟨o, ho, hsome⟩ := hr
      rw [Option.bind_eq_some] at hsome
      obtain ⟨r0, hget, hite⟩ := hsome
      by_cases hall0 : rest.all (condHolds r0) = true
      · rw [if_pos hall0] at hite
        have hrr : r0 = r := Option.some.inj hite
        subst hrr
        exact List.all_eq_true.mp hall0 cond hcond
      · rw [if_neg hall0] at hite
        exact absurd hite (by simp)

/-- Concrete index function for the C5/C6 witnesses. -/
def idxOne : Int → List Nat := fun k => if k = 1 then [0] else []

/-- A concrete one-record file for the C5 witness. -/
def fileOne : List Record :=
  [[("id", FieldValue.intV 1), ("name", FieldValue.strV "A")]]

/-- Concrete conditions `id = 1 AND name = 'A'` for the C5 witness. -/
def condsOne : List (String × FieldValue × String) :=
  [("id", FieldValue.intV 1, "="), ("name", FieldValue.strV "A", "=")]

/-- Witness for the C5 theorem at concrete inputs. -/
theorem searchRecordsAdvanced_index_use_witness :
    (searchRecordsAdvanced tblT true idxOne fileOne condsOne).1 = true ∧
    (∀ r ∈ (searchRecordsAdvanced tblT true idxOne fileOne condsOne).2,
      ∀ cond ∈ condsOne.drop 1, condHolds r cond = true) := by
  have h := searchRecordsAdvanced_index_use_iff tblT true idxOne fileOne
    condsOne ⟨"id", .int, 0, true⟩ rfl
  have hfst : (searchRecordsAdvanced tblT true idxOne fileOne condsOne).1 = true :=
    h.1.mpr ⟨rfl, 1, [("name", FieldValue.strV "A", "=")], rfl⟩
  exact ⟨hfst, h.2 hfst⟩

theorem matchingIdxsAux_shift (p : Record → Bool) :
    ∀ (l : List Record) (i : Nat),
    matchingIdxsAux p l (i + 1) = (matchingIdxsAux p l i).map (fun x => x + 1) := by
  intro l
  induction l with
  | nil => intro i; rfl
  | cons r rest ih =>
    intro i
    by_cases hp : p r = true <;> simp [matchingIdxsAux, hp, ih]

theorem filterMap_get_matchingIdxs (p : Record → Bool) :
    ∀ l : List Record,
    (matchingIdxsAux p l 0).filterMap (fun o => l[o]?) = l.filter p := by
  intro l
  induction l with
  | nil => rfl
  | cons r rest ih =>
    have hshift1 : matchingIdxsAux p rest 1
        = (matchingIdxsAux p rest 0).map (fun x => x + 1) :=
      matchingIdxsAux_shift p rest 0
    have hfun : ((fun o => (r :: rest)[o]?) ∘ fun x => x + 1)
        = fun o : Nat => rest[o]? := by
      funext o
      simp
    by_cases hp : p r = true
    · simp [matchingIdxsAux, hp, hshift1, List.filterMap_map, hfun, ih,
        List.filter_cons]
    · simp [matchingIdxsAux, hp, hshift1, List.filterMap_map, hfun, ih,
        List.filter_cons]

/-- C6.  For a point query whose index offsets are consistent with the
data file (they enumerate exactly the matching records, spec invariant
"index consistency"), the index-assisted result multiset equals the full
sequential-scan result multiset. -/
theorem searchRecords_scan_index_agree (file : List Record) (kc : String)
    (kv : FieldValue) (offsets : List Nat)
    (hcons : consistentOffsets file kc kv offsets) :
    (indexSearchRecords file offsets).Perm (scanSearchRecords file kc kv) := by
  have heq : offsets = matchingIdxsAux (recordMatches kc kv) file 0 := hcons
  rw [heq]
  have : indexSearchRecords file (matchingIdxsAux (recordMatches kc kv) file 0)
      = scanSearchRecords file kc kv :=
    filterMap_get_matchingIdxs (recordMatches kc kv) file
  rw [this]

/-- A concrete three-record file (two records with `id = 1`) for the C6
witness. -/
def fileThree : List Record :=
  [[("id", FieldValue.intV 1), ("name", FieldValue.strV "A")],
   [("id", FieldValue.intV 2), ("name", FieldValue.strV "B")],
   [("id", FieldValue.intV 1), ("name", FieldValue.strV "C")]]

/-- Witness for the C6 theorem at concrete inputs: index offsets `[0, 2]`
for key 1 agree with the scan. -/
theorem searchRecords_scan_index_agree_witness :
    (indexSearchRecords fileThree [0, 2]).Perm
      (scanSearchRecords fileThree "id" (FieldValue.intV 1)) :=
  searchRecords_scan_index_agree fileThree "id" (FieldValue.intV 1) [0, 2] rfl

/-- C7.  An UPDATE or DELETE whose predicate matches no record reports
failure with the "No record found matching the criteria" diagnostic,
leaves the data file unchanged, and removes the temporary file. -/
theorem updateDelete_no_match_leaves_file_untouched
    (schema : TableSchema) (hasIndex : Bool) (file : List Record)
    (kc : String) (kv : FieldValue) (newVals : List (String × FieldValue))
    (hno : ∀ r ∈ file, recordMatches kc kv r = false) :
    updateRecordM schema hasIndex file kc kv newVals
      = { success := false, dataFile := file, tempFile := none,
          indexRebuilt := false,
          message := "No record found matching the criteria" } ∧
    deleteRecordM schema hasIndex file kc kv
      = { success := false, dataFile := file, tempFile := none,
          indexRebuilt := false,
          message := "No record found matching the criteria" } := by
  have hany : file.any (recordMatches kc kv) = false :=
    List.any_eq_false.mpr (fun r hr => by simp [hno r hr])
  constructor
  · simp [updateRecordM, hany]
  · simp [deleteRecordM, hany]

/-- Witness for the C7 theorem at concrete inputs: deleting/updating
`id = 9` in a one-record file with `id = 1`. -/
theorem updateDelete_no_match_witness :
    updateRecordM tblT true fileOne "id" (FieldValue.intV 9)
        [("name", FieldValue.strV "B")]
      = { success := false, dataFile := fileOne, tempFile := none,
          indexRebuilt := false,
          message := "No record found matching the criteria" } ∧
    deleteRecordM tblT true fileOne "id" (FieldValue.intV 9)
      = { success := false, dataFile := fileOne, tempFile := none,
          indexRebuilt := false,
          message := "No record found matching the criteria" } :=
  updateDelete_no_match_leaves_file_untouched tblT true fileOne "id"
    (FieldValue.intV 9) [("name", FieldValue.strV "B")] (by decide)

/-- Counterexample to C8: a successful UPDATE that changes a record
(`SET name = 'B'` on the matching row) of an indexed table does NOT
rebuild the index, because the SET map does not bind the primary-key
column. -/
theorem updateRecord_no_rebuild_counterexample :
    (updateRecordM tblT true fileOne "id" (FieldValue.intV 1)
        [("name", FieldValue.strV "B")]).success = true ∧
    (updateRecordM tblT true fileOne "id" (FieldValue.intV 1)
        [("name", FieldValue.strV "B")]).dataFile ≠ fileOne ∧
    (updateRecordM tblT true fileOne "id" (FieldValue.intV 1)
        [("name", FieldValue.strV "B")]).indexRebuilt = false := by
  refine ⟨by decide, by decide, by decide⟩

/-- C8 (amended).  A successful DELETE on an indexed table whose records
all carry the primary-key field rebuilds the index; without an index
neither operation rebuilds; a successful UPDATE on an indexed table
rebuilds the index iff the SET map binds the primary-key column (a
successful UPDATE that leaves the primary key unset does NOT rebuild). -/
theorem updateDelete_index_rebuild_conditions
    (schema : TableSchema) (file : List Record) (kc : String)
    (kv : FieldValue) (newVals : List (String × FieldValue)) (pkc : Column)
    (hpk : firstPk schema = some pkc) (hne : pkc.name ≠ "") :
    ((deleteRecordM schema true file kc kv).success = true →
      (∀ r ∈ file, (recLookup r pkc.name).isSome) →
      (deleteRecordM schema true file kc kv).indexRebuilt = true) ∧
    ((deleteRecordM schema false file kc kv).indexRebuilt = false ∧
      (updateRecordM schema false file kc kv newVals).indexRebuilt = false) ∧
    ((updateRecordM schema true file kc kv newVals).success = true →
      (updateRecordM schema true file kc kv newVals).indexRebuilt
        = (recLookup newVals pkc.name).isSome) := by
  refine ⟨?_, ⟨?_, ?_⟩, ?_⟩
  · intro hsucc hall
    by_cases hfound : file.any (recordMatches kc kv) = true
    · obtain ⟨r, hr, hm⟩ := List.any_eq_true.mp hfound
      have h2 : file.any
          (fun r => recordMatches kc kv r && (recLookup r pkc.name).isSome)
            = true :=
        List.any_eq_true.mpr ⟨r, hr, by simp [hm, hall r hr]⟩
      simp [deleteRecordM, hpk, hfound, hne, h2]
    · have hfalse : file.any (recordMatches kc kv) = false := by
        simpa using hfound
      simp [deleteRecordM, hfalse] at hsucc
  · by_cases hfound : file.any (recordMatches kc kv) = true <;>
      simp [deleteRecordM, hfound]
  · by_cases hfound : file.any (recordMatches kc kv) = true <;>
      simp [updateRecordM, hfound]
  · intro hsucc
    by_cases hfound : file.any (recordMatches kc kv) = true
    · simp [updateRecordM, hpk, hfound, hne]
    · have hfalse : file.any (recordMatches kc kv) = false := by
        simpa using hfound
      simp [updateRecordM, hfalse] at hsucc

/-- Witness for the C8 amended theorem at concrete inputs. -/
theorem updateDelete_index_rebuild_witness :
    (deleteRecordM tblT true fileOne "id" (FieldValue.intV 1)).indexRebuilt
      = true ∧
    (deleteRecordM tblT false fileOne "id" (FieldValue.intV 1)).indexRebuilt
      = false ∧
    (updateRecordM tblT true fileOne "id" (FieldValue.intV 1)
        [("name", FieldValue.strV "B")]).indexRebuilt
      = (recLookup [("name", FieldValue.strV "B")] "id").isSome := by
  have h := updateDelete_index_rebuild_conditions tblT fileOne "id"
    (FieldValue.intV 1) [("name", FieldValue.strV "B")]
    ⟨"id", .int, 0, true⟩ rfl (by decide)
  exact ⟨h.1 (by decide) (by decide), h.2.1.1, h.2.2 (by decide)⟩

/-- A concrete single-INT-column table for the C9 counterexample. -/
def tblT9 : TableSchema :=
  { name := "t9",
    columns := [ { name := "id", type := .int, length := 0, is_primary_key := true } ] }

/-- Counterexample to C9: a SELECT on an existing but empty table
succeeds (`success = true`) while carrying the non-empty NotFound
diagnostic, so `error_message` empty is NOT equivalent to success. -/
theorem executeSelect_notfound_counterexample :
    (executeSelectNoJoin [tblT9] "t9" []).success = true ∧
    (executeSelectNoJoin [tblT9] "t9" []).errorMessage ≠ "" := by
  refine ⟨by decide, by decide⟩

/-- C9 (amended).  A failed statement always carries a non-empty
`error_message`; a successful SELECT with a non-empty result carries an
empty one; but a successful query with an empty result carries a
descriptive NotFound message, so the reverse direction of the claimed
equivalence fails. -/
theorem executeResult_message_nonempty_on_failure
    (catalog : List TableSchema) (tname : String) (file : List Record)
    (indexes : List String) (r : Record) (bfile : List Nat) :
    ((executeSelectNoJoin catalog tname file).success = false →
      (executeSelectNoJoin catalog tname file).errorMessage ≠ "") ∧
    ((executeSelectNoJoin catalog tname file).success = true → file ≠ [] →
      (executeSelectNoJoin catalog tname file).errorMessage = "") ∧
    ((executeInsertCmd catalog indexes tname r bfile).success = false →
      (executeInsertCmd catalog indexes tname r bfile).errorMessage ≠ "") := by
  refine ⟨?_, ?_, ?_⟩
  · intro hfail
    cases hft : findTable catalog tname with
    | none =>
      simp only [executeSelectNoJoin, hft]
      intro hcontra
      have hd := congrArg String.data hcontra
      simp [String.data_append] at hd
    | some schema =>
      by_cases hemp : file.isEmpty = true <;>
        simp [executeSelectNoJoin, hft, hemp] at hfail
  · intro hsucc hfile
    cases hft : findTable catalog tname with
    | none => simp [executeSelectNoJoin, hft] at hsucc
    | some schema =>
      have hemp : file.isEmpty = false := by
        simpa [List.isEmpty_iff] using hfile
      simp [executeSelectNoJoin, hft, hemp]
  · intro hfail
    cases hins : insertRecord catalog indexes tname r bfile with
    | some o => simp [executeInsertCmd, hins] at hfail
    | none =>
      simp only [executeInsertCmd, hins]
      intro hcontra
      have hd := congrArg String.data hcontra
      simp [String.data_append] at hd

/-- Witness for the C9 amended theorem at concrete inputs. -/
theorem executeResult_message_witness :
    (executeSelectNoJoin [] "z" []).errorMessage ≠ "" ∧
    (executeSelectNoJoin [tblT9] "t9" [[("id", FieldValue.intV 1)]]).errorMessage
      = "" ∧
    (executeInsertCmd [] [] "z" [] []).errorMessage ≠ "" := by
  have h1 := executeResult_message_nonempty_on_failure [] "z" [] [] [] []
  have h2 := executeResult_message_nonempty_on_failure [tblT9] "t9"
    [[("id", FieldValue.intV 1)]] [] [] []
  exact ⟨h1.1 (by decide), h2.2.1 (by decide) (by decide), h1.2.2 (by decide)⟩

end DB
